import Mathlib

/-!
Shallow embedding of the event-driven delete-file compaction trigger
(`lambda_function.py`): table-identity resolution from S3 keys, the
DynamoDB-backed lease and retry-marker operations, the SQS retry
publisher, and the batch handler.  Strings are modelled as `List Char`;
the single-table DynamoDB store as an association list from table id to
a record of the two numeric attributes; time as `Nat` epoch seconds
passed in by the caller.
-/

namespace GlueDeletes

/-- `leadsWith pat s` : `pat` occurs at the very start of `s`. -/
def leadsWith : List Char → List Char → Bool
  | [], _ => true
  | _ :: _, [] => false
  | p :: ps, c :: cs => p == c && leadsWith ps cs

/-- `hasSub pat s` : `pat` occurs somewhere in `s` (Python `pat in s`). -/
def hasSub (pat : List Char) : List Char → Bool
  | [] => leadsWith pat []
  | c :: cs => leadsWith pat (c :: cs) || hasSub pat cs

/-- Portion of `s` strictly before the first occurrence of `pat`
(all of `s` when `pat` does not occur): Python `s.split(pat)[0]`. -/
def beforeFirst (pat : List Char) : List Char → List Char
  | [] => []
  | c :: cs => if leadsWith pat (c :: cs) then [] else c :: beforeFirst pat cs

/-- Python `s.rsplit("/", 1)[0]`: everything before the last `'/'`,
or `s` itself when `s` has no `'/'`. -/
def parentPath (s : List Char) : List Char :=
  let r := s.reverse.dropWhile (fun c => c != '/')
  if r = [] then s else r.tail.reverse

/-- Python `s.replace('/', '.')` (single-character replacement). -/
def slashToDot (s : List Char) : List Char :=
  s.map (fun c => if c = '/' then '.' else c)

/-- Python `s.endswith(suf)`. -/
def endsWithL (suf s : List Char) : Bool :=
  leadsWith suf.reverse s.reverse

/-- The environment-derived configuration of the Lambda.  `none` for the
two optional identifiers models the unset / falsy case. -/
structure Config where
  stepFunctionArn : Option (List Char)
  deleteSuffix : List Char
  queueUrl : Option (List Char)
  retryDelaySeconds : Nat
  lockTtlSeconds : Nat
  catalogName : List Char
  warehouseS3 : List Char
  tableMappings : List (List Char × List Char)
  allowlist : List (List Char)
deriving DecidableEq

def dataMarker : List Char := "/data/".toList

def metadataMarker : List Char := "/metadata/".toList

/-- First mapping for the given key in `TABLE_MAPPINGS`. -/
def lookupMapping : List (List Char × List Char) → List Char → Option (List Char)
  | [], _ => none
  | (k, v) :: rest, p => if k = p then some v else lookupMapping rest p

/-- `_is_delete_file`. -/
def isDeleteFile (cfg : Config) (key : List Char) : Bool :=
  endsWithL cfg.deleteSuffix key

/-- `_table_id_from_key`: returns `(s3 table pfx, glue table identifier)`.
The source loops over the markers `"/data/"` then `"/metadata/"` and
splits at the first occurrence of the first marker that occurs at all;
if neither occurs it takes the parent path.  Fully-qualified name from
the static mapping when present, else catalog-prefixed dotted form. -/
def tableIdFromKey (cfg : Config) (key : List Char) : List Char × List Char :=
  let pfx :=
    if hasSub dataMarker key then beforeFirst dataMarker key
    else if hasSub metadataMarker key then beforeFirst metadataMarker key
    else parentPath key
  let glue :=
    match lookupMapping cfg.tableMappings pfx with
    | some m => cfg.catalogName ++ '.' :: m
    | none => cfg.catalogName ++ '.' :: slashToDot pfx
  (pfx, glue)

/-- One DynamoDB item of the lock table (besides its key): the numeric
attributes `lock_until` and `retry_queued_until`, each possibly absent. -/
structure Rec where
  lockUntil : Option Nat
  retryQueuedUntil : Option Nat
deriving DecidableEq

/-- The lock table: association list from `table_id` to its item. -/
abbrev Store := List (List Char × Rec)

def getRec : Store → List Char → Option Rec
  | [], _ => none
  | (k, r) :: rest, tid => if k = tid then some r else getRec rest tid

def putRec : Store → List Char → Rec → Store
  | [], tid, r => [(tid, r)]
  | (k, r0) :: rest, tid, r =>
    if k = tid then (tid, r) :: rest else (k, r0) :: putRec rest tid r

/-- `_acquire_lock`: conditional `put_item` with condition
`attribute_not_exists(table_id) OR lock_until < :now`.  On success the
whole item is replaced by `{table_id, lock_until}` (DynamoDB `put_item`
semantics), so `retry_queued_until` is dropped; on condition failure
nothing changes. -/
def acquireLock (cfg : Config) (st : Store) (tid : List Char) (now : Nat) :
    Bool × Store :=
  let cond :=
    match getRec st tid with
    | none => true
    | some r =>
      match r.lockUntil with
      | none => false
      | some lu => lu < now
  if cond then
    (true, putRec st tid ⟨some (now + cfg.lockTtlSeconds), none⟩)
  else
    (false, st)

/-- `_is_retry_already_queued`: diagnostic read of `retry_queued_until`
(missing item or attribute reads as 0). -/
def isRetryAlreadyQueued (st : Store) (tid : List Char) (now : Nat) : Bool :=
  let ru :=
    match getRec st tid with
    | none => 0
    | some r => r.retryQueuedUntil.getD 0
  now < ru

/-- `_mark_retry_queued`: conditional `update_item` setting
`retry_queued_until = now + RETRY_DELAY_SECONDS + 60` when no live
marker exists; `update_item` creates the item when absent and preserves
the other attributes when present. -/
def markRetryQueued (cfg : Config) (st : Store) (tid : List Char) (now : Nat) :
    Bool × Store :=
  let old := getRec st tid
  let cond :=
    match old with
    | none => true
    | some r =>
      match r.retryQueuedUntil with
      | none => true
      | some ru => ru < now
  if cond then
    let r0 := old.getD ⟨none, none⟩
    (true, putRec st tid { r0 with retryQueuedUntil := some (now + cfg.retryDelaySeconds + 60) })
  else
    (false, st)

/-- `_clear_retry_marker`: unconditional `update_item REMOVE
retry_queued_until` (creates a bare item when absent). -/
def clearRetryMarker (st : Store) (tid : List Char) : Store :=
  let r0 := (getRec st tid).getD ⟨none, none⟩
  putRec st tid { r0 with retryQueuedUntil := none }

/-- One SQS message published to the retry queue. -/
structure RetryMsg where
  s3Pfx : List Char
  glueTable : List Char
  bucket : List Char
  delaySeconds : Nat
deriving DecidableEq

/-- `_enqueue_retry_for_table`: nothing without a queue URL; otherwise
claim the marker and publish only when the claim succeeded, with the
delay capped at SQS's maximum of 900 seconds. -/
def enqueueRetryForTable (cfg : Config) (st : Store)
    (pfx glue bucket : List Char) (now : Nat) :
    Bool × Store × List RetryMsg :=
  match cfg.queueUrl with
  | none => (false, st, [])
  | some _ =>
    let m := markRetryQueued cfg st pfx now
    if m.1 then
      (true, m.2, [⟨pfx, glue, bucket, min cfg.retryDelaySeconds 900⟩])
    else
      (false, m.2, [])

/-- One normalized event, a tuple of `_extract_events`:
`(bucket, s3_key_or_none, s3_pfx_or_none, glue_table_or_none, is_retry)`. -/
structure RawEvent where
  bucket : List Char
  s3Key : Option (List Char)
  s3Pfx : Option (List Char)
  glueTable : Option (List Char)
  isRetryMsg : Bool
deriving DecidableEq

/-- A deduplicated batch entry: `(s3 pfx, glue table, bucket)`. -/
abbrev TabEntry := List Char × List Char × List Char

/-- The allowlist gate of the handler loop: skip when the allowlist is
non-empty and does not contain the table id. -/
def allowGate (cfg : Config) (p g b : List Char) : Option TabEntry :=
  if cfg.allowlist ≠ [] ∧ p ∉ cfg.allowlist then none else some (p, g, b)

/-- One iteration of the handler's first loop on one event: the store
after any marker clearing, whether the event was a retry signal, and the
entry to record (when not filtered out). -/
def processEvent (cfg : Config) (st : Store) (ev : RawEvent) :
    Store × Bool × Option TabEntry :=
  if ev.isRetryMsg then
    match ev.glueTable with
    | some g =>
      let p := ev.s3Pfx.getD []
      (clearRetryMarker st p, true, allowGate cfg p g ev.bucket)
    | none =>
      let p0 := ev.s3Pfx.getD []
      let pg := tableIdFromKey cfg (p0 ++ "/data/dummy".toList)
      (clearRetryMarker st pg.1, true, allowGate cfg pg.1 pg.2 ev.bucket)
  else
    match ev.s3Key with
    | none => (st, false, none)
    | some k =>
      if isDeleteFile cfg k then
        let pg := tableIdFromKey cfg k
        (st, false, allowGate cfg pg.1 pg.2 ev.bucket)
      else
        (st, false, none)

def keyMem (p : List Char) : List TabEntry → Bool
  | [] => false
  | e :: rest => e.1 = p || keyMem p rest

/-- The handler's first loop: clears retry markers of retry signals,
tracks `is_retry`, and builds the insertion-ordered `tables_to_compact`
dictionary with first-occurrence-wins semantics. -/
def collectPhase (cfg : Config) :
    List RawEvent → Store → Bool → List TabEntry →
    Store × Bool × List TabEntry
  | [], st, isr, acc => (st, isr, acc)
  | ev :: rest, st, isr, acc =>
    let step := processEvent cfg st ev
    let acc' :=
      match step.2.2 with
      | none => acc
      | some e => if keyMem e.1 acc then acc else acc ++ [e]
    collectPhase cfg rest step.1 (isr || step.2.1) acc'

/-- One Step Functions `start_execution` input. -/
structure SfExec where
  tableId : List Char
  glueTable : List Char
  warehouseS3 : List Char
deriving DecidableEq

/-- The handler's second loop: per distinct table, acquire the lease and
dispatch, else enqueue a retry, else count a skip.  Dispatch is modelled
as always succeeding (appended to the execution log). -/
def dispatchPhase (cfg : Config) (now : Nat) :
    List TabEntry → Store → Nat → Nat → Nat → List RetryMsg → List SfExec →
    Store × Nat × Nat × Nat × List RetryMsg × List SfExec
  | [], st, t, r, s, msgs, execs => (st, t, r, s, msgs, execs)
  | (p, g, b) :: rest, st, t, r, s, msgs, execs =>
    let a := acquireLock cfg st p now
    if a.1 then
      let e : SfExec :=
        ⟨p, g, if cfg.warehouseS3 = [] then "s3://".toList ++ b ++ "/".toList
               else cfg.warehouseS3⟩
      dispatchPhase cfg now rest a.2 (t + 1) r s msgs (execs ++ [e])
    else
      let q := enqueueRetryForTable cfg a.2 p g b now
      if q.1 then
        dispatchPhase cfg now rest q.2.1 t (r + 1) s (msgs ++ q.2.2) execs
      else
        dispatchPhase cfg now rest q.2.1 t r (s + 1) (msgs ++ q.2.2) execs

/-- A JSON-ish value of the returned dictionary. -/
inductive JVal where
  | s (v : List Char)
  | n (v : Nat)
  | b (v : Bool)
  | arr (v : List (List Char))
deriving DecidableEq

/-- The returned dictionary: field-name / value pairs in literal order. -/
abbrev RetDict := List (List Char × JVal)

def lookupField : RetDict → List Char → Option JVal
  | [], _ => none
  | (k, v) :: rest, f => if k = f then some v else lookupField rest f

def noOpDict : RetDict :=
  [("status".toList, JVal.s "no-op".toList), ("matched".toList, JVal.n 0)]

def runDict (t r s : Nat) (tabs : List TabEntry) (isr : Bool) : RetDict :=
  [("status".toList, JVal.s (if 0 < t then "triggered".toList
      else if 0 < r then "queued".toList else "skipped".toList)),
   ("tables".toList, JVal.arr (tabs.map (fun e => e.1))),
   ("started".toList, JVal.n t),
   ("retried".toList, JVal.n r),
   ("skipped".toList, JVal.n s),
   ("is_retry".toList, JVal.b isr)]

/-- `handler`, from the normalized event tuples onward.  The returned
value pairs the Python return dictionary with the final store and the
published SQS messages and Step Functions executions; the
`RuntimeError` raised when `STEP_FUNCTION_ARN` is unset is an
`Except.error` carrying the message and the store as it stands at the
raise (DynamoDB effects already performed persist). -/
def handler (cfg : Config) (now : Nat) (st : Store) (events : List RawEvent) :
    Except (List Char × Store) (RetDict × Store × List RetryMsg × List SfExec) :=
  let c := collectPhase cfg events st false []
  if c.2.2 = [] then
    Except.ok (noOpDict, c.1, [], [])
  else
    match cfg.stepFunctionArn with
    | none => Except.error ("STEP_FUNCTION_ARN is not set".toList, c.1)
    | some _ =>
      let d := dispatchPhase cfg now c.2.2 c.1 0 0 0 [] []
      Except.ok (runDict d.2.1 d.2.2.1 d.2.2.2.1 c.2.2 c.2.1,
        d.1, d.2.2.2.2.1, d.2.2.2.2.2)

/-- The per-event contribution to `tables_to_compact`, independent of the
store (the first loop's store effect is only marker clearing). -/
def eventKeep (cfg : Config) (ev : RawEvent) : Option TabEntry :=
  if ev.isRetryMsg then
    match ev.glueTable with
    | some g => allowGate cfg (ev.s3Pfx.getD []) g ev.bucket
    | none =>
      let pg := tableIdFromKey cfg ((ev.s3Pfx.getD []) ++ "/data/dummy".toList)
      allowGate cfg pg.1 pg.2 ev.bucket
  else
    match ev.s3Key with
    | none => none
    | some k =>
      if isDeleteFile cfg k then
        let pg := tableIdFromKey cfg k
        allowGate cfg pg.1 pg.2 ev.bucket
      else
        none

/-- First-occurrence-wins insertion of a stream of entries into an
insertion-ordered dictionary. -/
def dedupInto : List TabEntry → List TabEntry → List TabEntry
  | acc, [] => acc
  | acc, e :: ks => dedupInto (if keyMem e.1 acc then acc else acc ++ [e]) ks

/-- First entry with the given table id. -/
def lookupTab : List TabEntry → List Char → Option TabEntry
  | [], _ => none
  | e :: rest, p => if e.1 = p then some e else lookupTab rest p

/-- The lease-acquire success condition as the specification words it:
no record exists for the table id, or the stored `lockUntil` is strictly
below the current time. -/
def acquireCond (st : Store) (tid : List Char) (now : Nat) : Prop :=
  getRec st tid = none ∨
    ∃ r lu, getRec st tid = some r ∧ r.lockUntil = some lu ∧ lu < now

/-- Portion of `s` before the leftmost position at which either marker
occurs. -/
def beforeEither : List Char → List Char
  | [] => []
  | c :: cs =>
    if leadsWith dataMarker (c :: cs) || leadsWith metadataMarker (c :: cs) then []
    else c :: beforeEither cs

/-- The table id as claim C7 words the derivation rule: the portion
before the first occurrence of a `/data/` or `/metadata/` marker,
whichever comes first in the key, else the key's parent path.  Stated
from the claim's words for comparison against `tableIdFromKey`. -/
def firstEitherTid (key : List Char) : List Char :=
  if hasSub dataMarker key || hasSub metadataMarker key then beforeEither key
  else parentPath key

/-- A concrete configuration: orchestrator and queue configured, default
suffix, retry delay 300, lease TTL 900, catalog `cat`, no warehouse
override, no static mappings, no allowlist. -/
def cfgA : Config :=
  ⟨some "arn".toList, "-deletes.parquet".toList, some "q".toList, 300, 900,
   "cat".toList, [], [], []⟩

/-- `cfgA` with the orchestrator identifier unset. -/
def cfgNoArn : Config := { cfgA with stepFunctionArn := none }

/-- `cfgA` with the delay-channel identifier unset. -/
def cfgNoQueue : Config := { cfgA with queueUrl := none }

/-- A store holding table `t` with an expired lease and a live retry
marker. -/
def stMarked : Store := [("t".toList, ⟨some 0, some 100⟩)]

/-- A legacy-format retry signal for table `t`. -/
def evLegacyRetry : RawEvent :=
  ⟨"bkt".toList, none, some "t".toList, none, true⟩

/-- A delete-file notification for `sales/orders`. -/
def evDelete : RawEvent :=
  ⟨"bkt".toList, some "sales/orders/data/0001-deletes.parquet".toList,
   none, none, false⟩

/-! ### Store lemmas -/

theorem getRec_putRec_same (st : Store) (k : List Char) (r : Rec) :
    getRec (putRec st k r) k = some r := by
  induction st with
  | nil => simp [putRec, getRec]
  | cons e rest ih =>
    obtain ⟨k0, r0⟩ := e
    by_cases h : k0 = k
    · subst h
      simp [putRec, getRec]
    · simp [putRec, getRec, h, ih]

theorem getRec_putRec_other (st : Store) (k : List Char) (r : Rec)
    (tid : List Char) (h : k ≠ tid) :
    getRec (putRec st k r) tid = getRec st tid := by
  induction st with
  | nil => simp [putRec, getRec, h]
  | cons e rest ih =>
    obtain ⟨k0, r0⟩ := e
    by_cases h0 : k0 = k
    · subst h0
      simp [putRec, getRec, h]
    · simp [putRec, getRec, h0, ih]

theorem clearRetryMarker_lockView (st : Store) (p tid : List Char) :
    (getRec (clearRetryMarker st p) tid).bind Rec.lockUntil =
      (getRec st tid).bind Rec.lockUntil := by
  unfold clearRetryMarker
  by_cases h : p = tid
  · subst h
    rw [getRec_putRec_same]
    cases hg : getRec st p <;> simp [hg]
  · rw [getRec_putRec_other _ _ _ _ h]

theorem processEvent_lockView (cfg : Config) (st : Store) (ev : RawEvent)
    (tid : List Char) :
    (getRec (processEvent cfg st ev).1 tid).bind Rec.lockUntil =
      (getRec st tid).bind Rec.lockUntil := by
  unfold processEvent
  cases hr : ev.isRetryMsg
  · cases ev.s3Key <;> simp [clearRetryMarker_lockView]
    split <;> simp
  · cases ev.glueTable <;> simp [clearRetryMarker_lockView]

theorem collectPhase_lockView (cfg : Config) (evs : List RawEvent)
    (st : Store) (isr : Bool) (acc : List TabEntry) (tid : List Char) :
    (getRec (collectPhase cfg evs st isr acc).1 tid).bind Rec.lockUntil =
      (getRec st tid).bind Rec.lockUntil := by
  induction evs generalizing st isr acc with
  | nil => simp [collectPhase]
  | cons ev rest ih =>
    unfold collectPhase
    rw [ih]
    exact processEvent_lockView cfg st ev tid

/-! ### String-occurrence lemmas -/

theorem leadsWith_iff (pat s : List Char) :
    leadsWith pat s = true ↔ ∃ r, s = pat ++ r := by
  induction pat generalizing s with
  | nil =>
    simp [leadsWith]
  | cons p ps ih =>
    cases s with
    | nil =>
      simp [leadsWith]
    | cons c cs =>
      simp only [leadsWith, Bool.and_eq_true, beq_iff_eq, ih, List.cons_append]
      constructor
      · rintro ⟨rfl, r, rfl⟩
        exact ⟨r, rfl⟩
      · rintro ⟨r, h⟩
        injection h with h1 h2
        exact ⟨h1.symm, r, h2⟩

theorem hasSub_iff (pat s : List Char) :
    hasSub pat s = true ↔ ∃ a b, s = a ++ pat ++ b := by
  induction s with
  | nil =>
    simp only [hasSub, leadsWith_iff]
    constructor
    · rintro ⟨r, h⟩
      exact ⟨[], r, by simpa using h⟩
    · rintro ⟨a, b, h⟩
      rw [List.append_assoc] at h
      rcases List.append_eq_nil.mp h.symm with ⟨rfl, h2⟩
      exact ⟨b, by simpa using h⟩
  | cons c cs ih =>
    simp only [hasSub, Bool.or_eq_true, leadsWith_iff, ih]
    constructor
    · rintro (⟨r, h⟩ | ⟨a, b, h⟩)
      · exact ⟨[], r, by simpa using h⟩
      · exact ⟨c :: a, b, by simp [h]⟩
    · rintro ⟨a, b, h⟩
      cases a with
      | nil =>
        exact Or.inl ⟨b, by simpa using h⟩
      | cons a0 as =>
        rw [List.cons_append, List.cons_append] at h
        injection h with h1 h2
        exact Or.inr ⟨as, b, h2⟩

theorem beforeFirst_decomp (pat s : List Char) (h : hasSub pat s = true) :
    ∃ b, s = beforeFirst pat s ++ pat ++ b := by
  induction s with
  | nil =>
    rcases (hasSub_iff pat []).mp h with ⟨a, b, hab⟩
    rw [List.append_assoc] at hab
    rcases List.append_eq_nil.mp hab.symm with ⟨rfl, h2⟩
    rcases List.append_eq_nil.mp h2 with ⟨rfl, rfl⟩
    exact ⟨[], rfl⟩
  | cons c cs ih =>
    by_cases hL : leadsWith pat (c :: cs) = true
    · rcases (leadsWith_iff pat (c :: cs)).mp hL with ⟨r, hr⟩
      have hbf : beforeFirst pat (c :: cs) = [] := by simp [beforeFirst, hL]
      exact ⟨r, by rw [hbf]; simpa using hr⟩
    · have hL' : leadsWith pat (c :: cs) = false := by simpa using hL
      have hsub : hasSub pat cs = true := by
        have h2 := h
        simp only [hasSub, Bool.or_eq_true] at h2
        rcases h2 with h1 | h2
        · exact absurd h1 hL
        · exact h2
      have hbf : beforeFirst pat (c :: cs) = c :: beforeFirst pat cs := by
        simp [beforeFirst, hL']
      rcases ih hsub with ⟨b, hb⟩
      refine ⟨b, ?_⟩
      rw [hbf, List.cons_append, List.cons_append, ← hb]

theorem beforeFirst_min (pat s a b : List Char) (h : s = a ++ pat ++ b) :
    (beforeFirst pat s).length ≤ a.length := by
  induction s generalizing a with
  | nil => simp [beforeFirst]
  | cons c cs ih =>
    by_cases hL : leadsWith pat (c :: cs) = true
    · simp [beforeFirst, hL]
    · cases a with
      | nil =>
        exfalso
        apply hL
        rw [leadsWith_iff]
        exact ⟨b, by simpa using h⟩
      | cons a0 as =>
        have hL' : leadsWith pat (c :: cs) = false := by simpa using hL
        have hbf : beforeFirst pat (c :: cs) = c :: beforeFirst pat cs := by
          simp [beforeFirst, hL']
        rw [List.append_assoc, List.cons_append] at h
        injection h with h1 h2
        have hrec := ih as (by rw [List.append_assoc]; exact h2)
        rw [hbf, List.length_cons, List.length_cons]
        omega

theorem endsWithL_iff (suf s : List Char) :
    endsWithL suf s = true ↔ ∃ a, s = a ++ suf := by
  unfold endsWithL
  rw [leadsWith_iff]
  constructor
  · rintro ⟨r, h⟩
    refine ⟨r.reverse, ?_⟩
    have := congrArg List.reverse h
    simpa using this
  · rintro ⟨a, rfl⟩
    exact ⟨a.reverse, by simp⟩

/-! ### Batch-dedup lemmas -/

theorem processEvent_keep (cfg : Config) (st : Store) (ev : RawEvent) :
    (processEvent cfg st ev).2.2 = eventKeep cfg ev := by
  unfold processEvent eventKeep
  cases hr : ev.isRetryMsg
  · cases ev.s3Key <;> simp
    split <;> simp
  · cases ev.glueTable <;> simp

theorem keyMem_iff_lookup (p : List Char) (l : List TabEntry) :
    keyMem p l = (lookupTab l p).isSome := by
  induction l with
  | nil => simp [keyMem, lookupTab]
  | cons e rest ih =>
    by_cases h : e.1 = p
    · simp [keyMem, lookupTab, h]
    · simp [keyMem, lookupTab, h, ih]

theorem lookupTab_append_one (l : List TabEntry) (e : TabEntry) (p : List Char) :
    lookupTab (l ++ [e]) p =
      match lookupTab l p with
      | some x => some x
      | none => if e.1 = p then some e else none := by
  induction l with
  | nil => simp [lookupTab]
  | cons f rest ih =>
    by_cases h : f.1 = p
    · simp [lookupTab, h]
    · simp [lookupTab, h, ih]

theorem dedupInto_lookup (ks : List TabEntry) (acc : List TabEntry) (p : List Char) :
    lookupTab (dedupInto acc ks) p =
      match lookupTab acc p with
      | some x => some x
      | none => lookupTab ks p := by
  induction ks generalizing acc with
  | nil =>
    cases h : lookupTab acc p <;> simp [dedupInto, lookupTab, h]
  | cons e rest ih =>
    unfold dedupInto
    rw [ih]
    by_cases hm : keyMem e.1 acc
    · rw [if_pos hm]
      cases hl : lookupTab acc p
      · by_cases hp : e.1 = p
        · exfalso
          rw [hp, keyMem_iff_lookup, hl] at hm
          simp at hm
        · simp [lookupTab, hp]
      · simp
    · rw [if_neg hm]
      rw [lookupTab_append_one]
      cases hl : lookupTab acc p
      · by_cases hp : e.1 = p
        · simp [lookupTab, hp]
        · simp [lookupTab, hp]
      · simp

theorem lookupTab_isSome_of_mem (l : List TabEntry) (p : List Char)
    (hm : ∃ f, f ∈ l ∧ f.1 = p) : (lookupTab l p).isSome := by
  induction l with
  | nil =>
    rcases hm with ⟨f, hf, _⟩
    simp at hf
  | cons g rest ih =>
    rcases hm with ⟨f, hf, hfp⟩
    by_cases hg : g.1 = p
    · simp [lookupTab, hg]
    · rcases List.mem_cons.mp hf with rfl | hf2
      · exact absurd hfp hg
      · simp only [lookupTab, hg, if_false]
        exact ih ⟨f, hf2, hfp⟩

theorem dedupInto_nodup (ks : List TabEntry) (acc : List TabEntry)
    (h : (acc.map (fun e => e.1)).Nodup) :
    ((dedupInto acc ks).map (fun e => e.1)).Nodup := by
  induction ks generalizing acc with
  | nil => simpa [dedupInto] using h
  | cons e rest ih =>
    unfold dedupInto
    by_cases hm : keyMem e.1 acc
    · rw [if_pos hm]
      exact ih acc h
    · rw [if_neg hm]
      refine ih _ ?_
      rw [List.map_append, List.nodup_append]
      refine ⟨h, by simp, ?_⟩
      intro x hx hx2
      simp only [List.map_cons, List.map_nil, List.mem_singleton] at hx2
      subst hx2
      apply hm
      rw [keyMem_iff_lookup]
      rcases List.mem_map.mp hx with ⟨f, hf, hfe⟩
      exact lookupTab_isSome_of_mem acc e.1 ⟨f, hf, hfe⟩

theorem collectPhase_tabs (cfg : Config) (evs : List RawEvent)
    (st : Store) (isr : Bool) (acc : List TabEntry) :
    (collectPhase cfg evs st isr acc).2.2 =
      dedupInto acc (evs.filterMap (eventKeep cfg)) := by
  induction evs generalizing st isr acc with
  | nil => simp [collectPhase, dedupInto]
  | cons ev rest ih =>
    cases hk : eventKeep cfg ev with
    | none =>
      simp only [collectPhase, processEvent_keep, hk, List.filterMap_cons]
      exact ih _ _ _
    | some e =>
      simp only [collectPhase, processEvent_keep, hk, List.filterMap_cons, dedupInto]
      exact ih _ _ _

/-! ### Dispatch-loop lemmas -/

theorem dispatchPhase_counts (cfg : Config) (now : Nat) (l : List TabEntry)
    (st : Store) (t r s : Nat) (msgs : List RetryMsg) (execs : List SfExec) :
    (dispatchPhase cfg now l st t r s msgs execs).2.1 +
      (dispatchPhase cfg now l st t r s msgs execs).2.2.1 +
      (dispatchPhase cfg now l st t r s msgs execs).2.2.2.1 =
      t + r + s + l.length := by
  induction l generalizing st t r s msgs execs with
  | nil => simp [dispatchPhase]
  | cons e rest ih =>
    obtain ⟨p, g, b⟩ := e
    simp only [dispatchPhase]
    by_cases ha : (acquireLock cfg st p now).1 = true
    · rw [if_pos ha, ih]
      simp only [List.length_cons]
      omega
    · rw [if_neg ha]
      by_cases hq :
          (enqueueRetryForTable cfg (acquireLock cfg st p now).2 p g b now).1 = true
      · rw [if_pos hq, ih]
        simp only [List.length_cons]
        omega
      · rw [if_neg hq, ih]
        simp only [List.length_cons]
        omega

theorem enqueueRetry_noQueue (cfg : Config) (st : Store)
    (p g b : List Char) (now : Nat) (h : cfg.queueUrl = none) :
    enqueueRetryForTable cfg st p g b now = (false, st, []) := by
  unfold enqueueRetryForTable
  rw [h]

theorem dispatchPhase_noQueue (cfg : Config) (now : Nat) (l : List TabEntry)
    (st : Store) (t r s : Nat) (msgs : List RetryMsg) (execs : List SfExec)
    (h : cfg.queueUrl = none) :
    (dispatchPhase cfg now l st t r s msgs execs).2.2.1 = r ∧
      (dispatchPhase cfg now l st t r s msgs execs).2.2.2.2.1 = msgs := by
  induction l generalizing st t r s msgs execs with
  | nil => simp [dispatchPhase]
  | cons e rest ih =>
    obtain ⟨p, g, b⟩ := e
    simp only [dispatchPhase]
    by_cases ha : (acquireLock cfg st p now).1 = true
    · rw [if_pos ha]
      exact ih _ _ _ _ _ _
    · rw [if_neg ha, enqueueRetry_noQueue cfg _ p g b now h]
      rw [if_neg (by simp :
        ¬((false, (acquireLock cfg st p now).2, ([] : List RetryMsg)).1 = true))]
      rw [List.append_nil]
      exact ih _ _ _ _ _ _

/-! ### Lease and retry-marker operation lemmas -/

theorem acquireLock_cases (cfg : Config) (st : Store) (tid : List Char) (now : Nat) :
    acquireLock cfg st tid now = (false, st) ∨
    ((acquireLock cfg st tid now).1 = true ∧
      (acquireLock cfg st tid now).2 =
        putRec st tid ⟨some (now + cfg.lockTtlSeconds), none⟩) := by
  unfold acquireLock
  cases hg : getRec st tid with
  | none => right; simp [hg]
  | some r =>
    cases hl : r.lockUntil with
    | none => left; simp [hg, hl]
    | some lu =>
      by_cases hlt : lu < now
      · right; simp [hg, hl, hlt]
      · left; simp [hg, hl, hlt]

theorem markRetryQueued_cases (cfg : Config) (st : Store) (tid : List Char) (now : Nat) :
    markRetryQueued cfg st tid now = (false, st) ∨
    ((markRetryQueued cfg st tid now).1 = true ∧
      (markRetryQueued cfg st tid now).2 =
        putRec st tid ⟨((getRec st tid).getD ⟨none, none⟩).lockUntil,
          some (now + cfg.retryDelaySeconds + 60)⟩) := by
  unfold markRetryQueued
  cases hg : getRec st tid with
  | none => right; simp [hg]
  | some r =>
    cases hr : r.retryQueuedUntil with
    | none => right; simp [hg, hr]
    | some v =>
      by_cases hv : v < now
      · right; simp [hg, hr, hv]
      · left; simp [hg, hr, hv]

theorem markRetryQueued_success (cfg : Config) (st : Store) (tid : List Char) (now : Nat)
    (h : (getRec st tid).bind Rec.retryQueuedUntil = none ∨
      ∃ v, (getRec st tid).bind Rec.retryQueuedUntil = some v ∧ v < now) :
    (markRetryQueued cfg st tid now).1 = true := by
  unfold markRetryQueued
  cases hg : getRec st tid with
  | none => simp [hg]
  | some r =>
    cases hr : r.retryQueuedUntil with
    | none => simp [hg, hr]
    | some v =>
      rcases h with h | ⟨v', hv', hlt⟩
      · rw [hg] at h
        simp [hr] at h
      · rw [hg] at hv'
        simp [hr] at hv'
        subst hv'
        simp [hg, hr, hlt]

theorem markRetryQueued_blocked (cfg : Config) (st : Store) (tid : List Char) (now : Nat)
    (h : ∃ v, (getRec st tid).bind Rec.retryQueuedUntil = some v ∧ now ≤ v) :
    markRetryQueued cfg st tid now = (false, st) := by
  obtain ⟨v, hv, hle⟩ := h
  unfold markRetryQueued
  cases hg : getRec st tid with
  | none =>
    rw [hg] at hv
    simp at hv
  | some r =>
    cases hr : r.retryQueuedUntil with
    | none =>
      rw [hg] at hv
      simp [hr] at hv
    | some v0 =>
      rw [hg] at hv
      simp [hr] at hv
      subst hv
      simp [hg, hr, Nat.not_lt.mpr hle]

theorem markRetryQueued_post (cfg : Config) (st : Store) (tid : List Char) (now : Nat)
    (h : (markRetryQueued cfg st tid now).1 = true) :
    getRec (markRetryQueued cfg st tid now).2 tid =
      some ⟨((getRec st tid).getD ⟨none, none⟩).lockUntil,
        some (now + cfg.retryDelaySeconds + 60)⟩ := by
  rcases markRetryQueued_cases cfg st tid now with hf | ⟨h1, h2⟩
  · rw [hf] at h
    simp at h
  · rw [h2, getRec_putRec_same]

theorem enqueueRetry_someQueue (cfg : Config) (st : Store)
    (p g b : List Char) (now : Nat) (hq : cfg.queueUrl ≠ none) :
    enqueueRetryForTable cfg st p g b now =
      if (markRetryQueued cfg st p now).1 then
        (true, (markRetryQueued cfg st p now).2,
          [⟨p, g, b, min cfg.retryDelaySeconds 900⟩])
      else
        (false, (markRetryQueued cfg st p now).2, []) := by
  obtain ⟨u, hu⟩ := Option.ne_none_iff_exists'.mp hq
  simp only [enqueueRetryForTable, hu]

/-! ### Claim C1 -/

/-- C1: the lease acquire succeeds and stores `lockUntil = now + ttl`
exactly when no record exists for the table id or the stored `lockUntil`
is strictly less than `now`; when the condition fails it returns false
and leaves the store unchanged. -/
theorem c1_lease_acquire_conditional_write (cfg : Config) (st : Store)
    (tid : List Char) (now : Nat) :
    ((acquireLock cfg st tid now).1 = true ↔ acquireCond st tid now) ∧
    ((acquireLock cfg st tid now).1 = true →
      ∃ r, getRec (acquireLock cfg st tid now).2 tid = some r ∧
        r.lockUntil = some (now + cfg.lockTtlSeconds)) ∧
    ((acquireLock cfg st tid now).1 = false →
      (acquireLock cfg st tid now).2 = st) := by
  unfold acquireLock acquireCond
  cases hg : getRec st tid with
  | none =>
    simp [getRec_putRec_same]
  | some r =>
    cases hl : r.lockUntil with
    | none =>
      simp [hl]
    | some lu =>
      by_cases hlt : lu < now
      · simp [hl, hlt, getRec_putRec_same]
      · simp [hl, hlt]

/-- Witness for C1: on the empty store the acquire at time 5 goes
through and stores `lockUntil = 5 + ttl`. -/
theorem c1_lease_acquire_conditional_write_witness :
    ∃ r, getRec (acquireLock cfgA [] ("t".toList) 5).2 ("t".toList) = some r ∧
      r.lockUntil = some (5 + cfgA.lockTtlSeconds) :=
  (c1_lease_acquire_conditional_write cfgA [] ("t".toList) 5).2.1 (by decide)

/-! ### Claim C2 -/

/-- C2: with a configured queue, of two `enqueueRetry` calls for the same
table the first (no live marker) publishes exactly one message carrying
the request, and the second, issued before the marker expires, publishes
nothing; a call publishes iff its `mark` claim succeeds, and at most one
of the two `mark` calls can succeed. -/
theorem c2_enqueue_retry_dedup (cfg : Config) (st : Store)
    (tid g1 b1 g2 b2 : List Char) (t1 t2 : Nat)
    (hq : cfg.queueUrl ≠ none)
    (h1 : (getRec st tid).bind Rec.retryQueuedUntil = none ∨
      ∃ v, (getRec st tid).bind Rec.retryQueuedUntil = some v ∧ v < t1)
    (h2 : t2 ≤ t1 + cfg.retryDelaySeconds + 60) :
    (enqueueRetryForTable cfg st tid g1 b1 t1).1 = true ∧
    (enqueueRetryForTable cfg st tid g1 b1 t1).2.2 =
      [⟨tid, g1, b1, min cfg.retryDelaySeconds 900⟩] ∧
    (enqueueRetryForTable cfg
      (enqueueRetryForTable cfg st tid g1 b1 t1).2.1 tid g2 b2 t2).1 = false ∧
    (enqueueRetryForTable cfg
      (enqueueRetryForTable cfg st tid g1 b1 t1).2.1 tid g2 b2 t2).2.2 = [] ∧
    (∀ (st' : Store) (g b : List Char) (n : Nat),
      (enqueueRetryForTable cfg st' tid g b n).2.2 ≠ [] ↔
        (markRetryQueued cfg st' tid n).1 = true) ∧
    (∀ st0 : Store,
      ¬((markRetryQueued cfg st0 tid t1).1 = true ∧
        (markRetryQueued cfg (markRetryQueued cfg st0 tid t1).2 tid t2).1 = true)) := by
  have hm1 : (markRetryQueued cfg st tid t1).1 = true :=
    markRetryQueued_success cfg st tid t1 h1
  have he1 : enqueueRetryForTable cfg st tid g1 b1 t1 =
      (true, (markRetryQueued cfg st tid t1).2,
        [⟨tid, g1, b1, min cfg.retryDelaySeconds 900⟩]) := by
    rw [enqueueRetry_someQueue cfg st tid g1 b1 t1 hq, if_pos hm1]
  have hget : (getRec (markRetryQueued cfg st tid t1).2 tid).bind Rec.retryQueuedUntil =
      some (t1 + cfg.retryDelaySeconds + 60) := by
    rw [markRetryQueued_post cfg st tid t1 hm1]
    rfl
  have hm2 : markRetryQueued cfg (markRetryQueued cfg st tid t1).2 tid t2 =
      (false, (markRetryQueued cfg st tid t1).2) :=
    markRetryQueued_blocked cfg _ tid t2 ⟨t1 + cfg.retryDelaySeconds + 60, hget, h2⟩
  have he2 : enqueueRetryForTable cfg
      (enqueueRetryForTable cfg st tid g1 b1 t1).2.1 tid g2 b2 t2 =
      (false, (markRetryQueued cfg (enqueueRetryForTable cfg st tid g1 b1 t1).2.1 tid t2).2,
        []) := by
    rw [enqueueRetry_someQueue cfg _ tid g2 b2 t2 hq, if_neg (by rw [he1]; simp [hm2])]
  refine ⟨by rw [he1], by rw [he1], by rw [he2], by rw [he2], ?_, ?_⟩
  · intro st' g b n
    rw [enqueueRetry_someQueue cfg st' tid g b n hq]
    by_cases hm : (markRetryQueued cfg st' tid n).1 = true
    · simp [hm]
    · simp [hm]
  · rintro st0 ⟨ha, hb⟩
    have hget0 : (getRec (markRetryQueued cfg st0 tid t1).2 tid).bind
        Rec.retryQueuedUntil = some (t1 + cfg.retryDelaySeconds + 60) := by
      rw [markRetryQueued_post cfg st0 tid t1 ha]
      rfl
    rw [markRetryQueued_blocked cfg _ tid t2
      ⟨t1 + cfg.retryDelaySeconds + 60, hget0, h2⟩] at hb
    simp at hb

/-- Witness for C2: from the empty store with `cfgA`, two enqueues at
times 0 and 100 publish exactly one message in total. -/
theorem c2_enqueue_retry_dedup_witness :
    (enqueueRetryForTable cfgA [] ("t".toList) ("g".toList) ("b".toList) 0).1 = true ∧
    (enqueueRetryForTable cfgA [] ("t".toList) ("g".toList) ("b".toList) 0).2.2 =
      [⟨"t".toList, "g".toList, "b".toList, min cfgA.retryDelaySeconds 900⟩] ∧
    (enqueueRetryForTable cfgA
      (enqueueRetryForTable cfgA [] ("t".toList) ("g".toList) ("b".toList) 0).2.1
      ("t".toList) ("g".toList) ("b".toList) 100).1 = false ∧
    (enqueueRetryForTable cfgA
      (enqueueRetryForTable cfgA [] ("t".toList) ("g".toList) ("b".toList) 0).2.1
      ("t".toList) ("g".toList) ("b".toList) 100).2.2 = [] := by
  have h := c2_enqueue_retry_dedup cfgA [] ("t".toList) ("g".toList) ("b".toList)
    ("g".toList) ("b".toList) 0 100 (by decide) (Or.inl (by decide)) (by decide)
  exact ⟨h.1, h.2.1, h.2.2.1, h.2.2.2.1⟩

/-! ### Claim C3 -/

/-- C3 counterexample: a successful lease acquire replaces the whole
item, so a stored `retryQueuedUntil` of 100 is removed by an acquire at
time 10 — refuting that acquire leaves the marker unchanged. -/
theorem c3_counterexample :
    (acquireLock cfgA stMarked ("t".toList) 10).1 = true ∧
    (getRec stMarked ("t".toList)).bind Rec.retryQueuedUntil = some 100 ∧
    (getRec (acquireLock cfgA stMarked ("t".toList) 10).2 ("t".toList)).bind
      Rec.retryQueuedUntil = none := by
  exact ⟨by decide, by decide, by decide⟩

/-- C3 (amended): the clear operation removes `retryQueuedUntil` and the
mark operation never removes a present marker, but a successful lease
acquire replaces the record wholesale and drops any stored
`retryQueuedUntil` (a failed acquire changes nothing); each operation
leaves every other table id's record untouched. -/
theorem c3_amended_retry_marker_lifecycle (cfg : Config) (st : Store)
    (tid : List Char) (now : Nat) :
    ((acquireLock cfg st tid now).1 = true →
      (getRec (acquireLock cfg st tid now).2 tid).bind Rec.retryQueuedUntil = none) ∧
    ((acquireLock cfg st tid now).1 = false →
      (acquireLock cfg st tid now).2 = st) ∧
    ((getRec st tid).bind Rec.retryQueuedUntil ≠ none →
      (getRec (markRetryQueued cfg st tid now).2 tid).bind Rec.retryQueuedUntil ≠ none) ∧
    ((getRec (clearRetryMarker st tid) tid).bind Rec.retryQueuedUntil = none) ∧
    (∀ other, other ≠ tid →
      getRec (clearRetryMarker st tid) other = getRec st other ∧
      getRec (acquireLock cfg st tid now).2 other = getRec st other ∧
      getRec (markRetryQueued cfg st tid now).2 other = getRec st other) := by
  refine ⟨?_, ?_, ?_, ?_, ?_⟩
  · intro h
    rcases acquireLock_cases cfg st tid now with hf | ⟨h1, h2⟩
    · rw [hf] at h
      simp at h
    · rw [h2, getRec_putRec_same]
      rfl
  · intro h
    rcases acquireLock_cases cfg st tid now with hf | ⟨h1, h2⟩
    · rw [hf]
    · rw [h1] at h
      simp at h
  · intro h
    rcases markRetryQueued_cases cfg st tid now with hf | ⟨h1, h2⟩
    · rw [hf]
      exact h
    · rw [h2, getRec_putRec_same]
      simp
  · unfold clearRetryMarker
    rw [getRec_putRec_same]
    rfl
  · intro other hne
    refine ⟨?_, ?_, ?_⟩
    · unfold clearRetryMarker
      exact getRec_putRec_other st tid _ other (Ne.symm hne)
    · rcases acquireLock_cases cfg st tid now with hf | ⟨h1, h2⟩
      · rw [hf]
      · rw [h2]
        exact getRec_putRec_other st tid _ other (Ne.symm hne)
    · rcases markRetryQueued_cases cfg st tid now with hf | ⟨h1, h2⟩
      · rw [hf]
      · rw [h2]
        exact getRec_putRec_other st tid _ other (Ne.symm hne)

/-- Witness for C3 (amended): concrete instances of the acquire-drops,
mark-preserves and frame parts on `stMarked`. -/
theorem c3_amended_retry_marker_lifecycle_witness :
    (getRec (acquireLock cfgA stMarked ("t".toList) 10).2 ("t".toList)).bind
      Rec.retryQueuedUntil = none ∧
    (getRec (markRetryQueued cfgA stMarked ("t".toList) 200).2 ("t".toList)).bind
      Rec.retryQueuedUntil ≠ none ∧
    getRec (clearRetryMarker stMarked ("t".toList)) ("u".toList) =
      getRec stMarked ("u".toList) :=
  ⟨(c3_amended_retry_marker_lifecycle cfgA stMarked ("t".toList) 10).1 (by decide),
   (c3_amended_retry_marker_lifecycle cfgA stMarked ("t".toList) 200).2.2.1 (by decide),
   ((c3_amended_retry_marker_lifecycle cfgA stMarked ("t".toList) 200).2.2.2.2
     ("u".toList) (by decide)).1⟩

/-! ### Handler-shape lemmas -/

theorem handler_run (cfg : Config) (now : Nat) (st : Store) (evs : List RawEvent)
    (a : List Char) (ha : cfg.stepFunctionArn = some a)
    (hne : (collectPhase cfg evs st false []).2.2 ≠ []) :
    handler cfg now st evs = Except.ok
      (runDict
        (dispatchPhase cfg now (collectPhase cfg evs st false []).2.2
          (collectPhase cfg evs st false []).1 0 0 0 [] []).2.1
        (dispatchPhase cfg now (collectPhase cfg evs st false []).2.2
          (collectPhase cfg evs st false []).1 0 0 0 [] []).2.2.1
        (dispatchPhase cfg now (collectPhase cfg evs st false []).2.2
          (collectPhase cfg evs st false []).1 0 0 0 [] []).2.2.2.1
        (collectPhase cfg evs st false []).2.2
        (collectPhase cfg evs st false []).2.1,
       (dispatchPhase cfg now (collectPhase cfg evs st false []).2.2
          (collectPhase cfg evs st false []).1 0 0 0 [] []).1,
       (dispatchPhase cfg now (collectPhase cfg evs st false []).2.2
          (collectPhase cfg evs st false []).1 0 0 0 [] []).2.2.2.2.1,
       (dispatchPhase cfg now (collectPhase cfg evs st false []).2.2
          (collectPhase cfg evs st false []).1 0 0 0 [] []).2.2.2.2.2) := by
  simp only [handler, ha, if_neg hne]

theorem handler_noop (cfg : Config) (now : Nat) (st : Store) (evs : List RawEvent)
    (hc : (collectPhase cfg evs st false []).2.2 = []) :
    handler cfg now st evs =
      Except.ok (noOpDict, (collectPhase cfg evs st false []).1, [], []) := by
  simp only [handler, if_pos hc]

theorem handler_noArn (cfg : Config) (now : Nat) (st : Store) (evs : List RawEvent)
    (ha : cfg.stepFunctionArn = none)
    (hne : (collectPhase cfg evs st false []).2.2 ≠ []) :
    handler cfg now st evs = Except.error
      ("STEP_FUNCTION_ARN is not set".toList, (collectPhase cfg evs st false []).1) := by
  simp only [handler, ha, if_neg hne]

theorem lookupField_runDict_started (t r s : Nat) (tabs : List TabEntry) (isr : Bool) :
    lookupField (runDict t r s tabs isr) ("started".toList) = some (JVal.n t) := rfl

theorem lookupField_runDict_retried (t r s : Nat) (tabs : List TabEntry) (isr : Bool) :
    lookupField (runDict t r s tabs isr) ("retried".toList) = some (JVal.n r) := rfl

theorem lookupField_runDict_skipped (t r s : Nat) (tabs : List TabEntry) (isr : Bool) :
    lookupField (runDict t r s tabs isr) ("skipped".toList) = some (JVal.n s) := rfl

/-! ### Claim C4 -/

/-- C4 counterexample: with the orchestrator identifier unset, a batch
holding a legacy retry signal still clears the table's retry marker
before the fatal error is raised, and an empty batch returns the no-op
result instead of failing — refuting that the invocation aborts before
any event processing with no result returned. -/
theorem c4_counterexample :
    handler cfgNoArn 0 stMarked [evLegacyRetry] =
      Except.error ("STEP_FUNCTION_ARN is not set".toList,
        [("t".toList, ⟨some 0, none⟩)]) ∧
    (getRec stMarked ("t".toList)).bind Rec.retryQueuedUntil = some 100 ∧
    handler cfgNoArn 0 [] [] = Except.ok (noOpDict, [], [], []) := by
  exact ⟨by rfl, by decide, by rfl⟩

/-- C4 (amended): with the orchestrator identifier absent the handler
never acquires a lease, never publishes and never dispatches: it either
returns the no-op result (when no table matched) or raises the
configuration error after the normalization loop, whose marker-clearing
effects persist; every record's `lockUntil` is left as it was. -/
theorem c4_amended_missing_arn (cfg : Config) (now : Nat) (st : Store)
    (evs : List RawEvent) (h : cfg.stepFunctionArn = none) :
    (∀ e, handler cfg now st evs = Except.error e →
      e.1 = "STEP_FUNCTION_ARN is not set".toList ∧
      ∀ tid, (getRec e.2 tid).bind Rec.lockUntil =
        (getRec st tid).bind Rec.lockUntil) ∧
    (∀ d, handler cfg now st evs = Except.ok d →
      d.1 = noOpDict ∧ d.2.2.1 = [] ∧ d.2.2.2 = [] ∧
      ∀ tid, (getRec d.2.1 tid).bind Rec.lockUntil =
        (getRec st tid).bind Rec.lockUntil) := by
  by_cases hc : (collectPhase cfg evs st false []).2.2 = []
  · rw [handler_noop cfg now st evs hc]
    constructor
    · intro e he
      simp at he
    · intro d hd
      injection hd with hd
      subst hd
      exact ⟨rfl, rfl, rfl, fun tid => collectPhase_lockView cfg evs st false [] tid⟩
  · rw [handler_noArn cfg now st evs h hc]
    constructor
    · intro e he
      injection he with he
      subst he
      exact ⟨rfl, fun tid => collectPhase_lockView cfg evs st false [] tid⟩
    · intro d hd
      simp at hd

/-- Witness for C4 (amended): the error branch on a concrete legacy
retry batch leaves the stored `lockUntil` of table `t` untouched. -/
theorem c4_amended_missing_arn_witness :
    ("STEP_FUNCTION_ARN is not set".toList,
        ([("t".toList, (⟨some 0, none⟩ : Rec))] : Store)).1 =
      "STEP_FUNCTION_ARN is not set".toList ∧
    ∀ tid, (getRec ("STEP_FUNCTION_ARN is not set".toList,
        ([("t".toList, (⟨some 0, none⟩ : Rec))] : Store)).2 tid).bind Rec.lockUntil =
      (getRec stMarked tid).bind Rec.lockUntil :=
  (c4_amended_missing_arn cfgNoArn 0 stMarked [evLegacyRetry] rfl).1
    ("STEP_FUNCTION_ARN is not set".toList, [("t".toList, ⟨some 0, none⟩)]) (by rfl)

/-! ### Claim C5 -/

/-- C5: within one batch each table id is recorded at most once, and the
entry the handler records for a table id is the first kept occurrence in
event order, so later events for the same table never overwrite the
identity or bucket recorded first. -/
theorem c5_batch_dedup_first_wins (cfg : Config) (st : Store)
    (evs : List RawEvent) :
    ((collectPhase cfg evs st false []).2.2.map (fun e => e.1)).Nodup ∧
    (∀ p, lookupTab (collectPhase cfg evs st false []).2.2 p =
      lookupTab (evs.filterMap (eventKeep cfg)) p) := by
  constructor
  · rw [collectPhase_tabs]
    exact dedupInto_nodup _ [] (by simp)
  · intro p
    rw [collectPhase_tabs, dedupInto_lookup]
    simp [lookupTab]

/-! ### Claim C6 -/

/-- C6 counterexample: on an empty batch the handler returns the two-field
dictionary `{status: no-op, matched: 0}`; the fields `tables`, `started`,
`retried`, `skipped` and `is_retry` are all absent — refuting that every
invocation's return value contains them. -/
theorem c6_counterexample :
    handler cfgA 0 [] [] = Except.ok (noOpDict, [], [], []) ∧
    lookupField noOpDict ("status".toList) = some (JVal.s ("no-op".toList)) ∧
    lookupField noOpDict ("tables".toList) = none ∧
    lookupField noOpDict ("started".toList) = none ∧
    lookupField noOpDict ("retried".toList) = none ∧
    lookupField noOpDict ("skipped".toList) = none ∧
    lookupField noOpDict ("is_retry".toList) = none := by
  exact ⟨by rfl, by decide, by decide, by decide, by decide, by decide, by decide⟩

/-- C6 (amended): when no table matched the handler returns exactly
`{status: no-op, matched: 0}`; otherwise it returns the six-field
dictionary `{status, tables, started, retried, skipped, is_retry}` with
status `triggered` when a dispatch succeeded, else `queued` when a retry
was enqueued, else `skipped`. -/
theorem c6_amended_result_contract (cfg : Config) (now : Nat) (st : Store)
    (evs : List RawEvent) (d : RetDict × Store × List RetryMsg × List SfExec)
    (h : handler cfg now st evs = Except.ok d) :
    (d.1 = noOpDict ∧ (collectPhase cfg evs st false []).2.2 = []) ∨
    ((collectPhase cfg evs st false []).2.2 ≠ [] ∧
      ∃ t r s isr, d.1 = runDict t r s (collectPhase cfg evs st false []).2.2 isr) := by
  by_cases hc : (collectPhase cfg evs st false []).2.2 = []
  · rw [handler_noop cfg now st evs hc] at h
    injection h with h
    subst h
    exact Or.inl ⟨rfl, hc⟩
  · cases ha : cfg.stepFunctionArn with
    | none =>
      rw [handler_noArn cfg now st evs ha hc] at h
      simp at h
    | some a =>
      rw [handler_run cfg now st evs a ha hc] at h
      injection h with h
      subst h
      exact Or.inr ⟨hc, _, _, _, _, rfl⟩

/-- Witness for C6 (amended): the empty batch lands in the no-op case. -/
theorem c6_amended_result_contract_witness :
    ((noOpDict, ([] : Store), ([] : List RetryMsg), ([] : List SfExec)).1 = noOpDict ∧
      (collectPhase cfgA [] [] false []).2.2 = []) ∨
    ((collectPhase cfgA [] [] false []).2.2 ≠ [] ∧
      ∃ t r s isr,
        (noOpDict, ([] : Store), ([] : List RetryMsg), ([] : List SfExec)).1 =
          runDict t r s (collectPhase cfgA [] [] false []).2.2 isr) :=
  c6_amended_result_contract cfgA 0 [] [] (noOpDict, [], [], []) (by rfl)

/-! ### Claim C8 -/

/-- C8: with the orchestrator configured and n ≥ 1 distinct tables after
filtering and dedup, every dispatch succeeding (as modelled), the handler
returns counts with started + retried + skipped = n. -/
theorem c8_counts_partition (cfg : Config) (now : Nat) (st : Store)
    (evs : List RawEvent) (harn : cfg.stepFunctionArn ≠ none)
    (hne : (collectPhase cfg evs st false []).2.2 ≠ []) :
    ∃ d t r s, handler cfg now st evs = Except.ok d ∧
      lookupField d.1 ("started".toList) = some (JVal.n t) ∧
      lookupField d.1 ("retried".toList) = some (JVal.n r) ∧
      lookupField d.1 ("skipped".toList) = some (JVal.n s) ∧
      t + r + s = (collectPhase cfg evs st false []).2.2.length := by
  obtain ⟨a, ha⟩ := Option.ne_none_iff_exists'.mp harn
  refine ⟨_, _, _, _, handler_run cfg now st evs a ha hne,
    lookupField_runDict_started _ _ _ _ _,
    lookupField_runDict_retried _ _ _ _ _,
    lookupField_runDict_skipped _ _ _ _ _, ?_⟩
  have hsum := dispatchPhase_counts cfg now (collectPhase cfg evs st false []).2.2
    (collectPhase cfg evs st false []).1 0 0 0 [] []
  omega

/-- Witness for C8: one delete-file event yields one table and the three
counts sum to 1. -/
theorem c8_counts_partition_witness :
    ∃ d t r s, handler cfgA 5 [] [evDelete] = Except.ok d ∧
      lookupField d.1 ("started".toList) = some (JVal.n t) ∧
      lookupField d.1 ("retried".toList) = some (JVal.n r) ∧
      lookupField d.1 ("skipped".toList) = some (JVal.n s) ∧
      t + r + s = (collectPhase cfgA [evDelete] [] false []).2.2.length :=
  c8_counts_partition cfgA 5 [] [evDelete] (by decide) (by decide)

/-! ### Claim C9 -/

/-- C9: when the delay channel is not configured, `enqueueRetry` returns
false without touching the store and without publishing, so the handler
publishes nothing, reports `retried = 0`, and every table whose lease
acquire failed counts as skipped (started + skipped covers all tables). -/
theorem c9_no_queue_no_retry (cfg : Config) (hq : cfg.queueUrl = none) :
    (∀ (st : Store) (p g b : List Char) (now : Nat),
      enqueueRetryForTable cfg st p g b now = (false, st, [])) ∧
    (∀ (now : Nat) (st : Store) (evs : List RawEvent)
        (d : RetDict × Store × List RetryMsg × List SfExec),
      handler cfg now st evs = Except.ok d →
        d.2.2.1 = [] ∧
        (d.1 = noOpDict ∨
          ∃ t s isr,
            d.1 = runDict t 0 s (collectPhase cfg evs st false []).2.2 isr ∧
              t + s = (collectPhase cfg evs st false []).2.2.length)) := by
  constructor
  · intro st p g b now
    exact enqueueRetry_noQueue cfg st p g b now hq
  · intro now st evs d h
    by_cases hc : (collectPhase cfg evs st false []).2.2 = []
    · rw [handler_noop cfg now st evs hc] at h
      injection h with h
      subst h
      exact ⟨rfl, Or.inl rfl⟩
    · cases ha : cfg.stepFunctionArn with
      | none =>
        rw [handler_noArn cfg now st evs ha hc] at h
        simp at h
      | some a =>
        rw [handler_run cfg now st evs a ha hc] at h
        injection h with h
        subst h
        have hnq := dispatchPhase_noQueue cfg now (collectPhase cfg evs st false []).2.2
          (collectPhase cfg evs st false []).1 0 0 0 [] [] hq
        have hsum := dispatchPhase_counts cfg now (collectPhase cfg evs st false []).2.2
          (collectPhase cfg evs st false []).1 0 0 0 [] []
        refine ⟨hnq.2, Or.inr
          ⟨(dispatchPhase cfg now (collectPhase cfg evs st false []).2.2
              (collectPhase cfg evs st false []).1 0 0 0 [] []).2.1,
           (dispatchPhase cfg now (collectPhase cfg evs st false []).2.2
              (collectPhase cfg evs st false []).1 0 0 0 [] []).2.2.2.1,
           (collectPhase cfg evs st false []).2.1, by rw [hnq.1], by omega⟩⟩

/-- Witness for C9: with `cfgNoQueue` an enqueue is a no-op returning
false. -/
theorem c9_no_queue_no_retry_witness :
    enqueueRetryForTable cfgNoQueue [] ("t".toList) ("g".toList) ("b".toList) 0 =
      (false, [], []) :=
  (c9_no_queue_no_retry cfgNoQueue rfl).1 [] ("t".toList) ("g".toList) ("b".toList) 0

/-! ### Claim C7 -/

/-- C7 counterexample: on `a/metadata/b/data/c` the source splits at the
first `/data/` (because the marker loop tries `/data/` first), giving
`a/metadata/b`, while the portion before the first occurrence of either
marker (the claim's wording, here `/metadata/` at position 1) is `a`. -/
theorem c7_counterexample :
    (tableIdFromKey cfgA ("a/metadata/b/data/c".toList)).1 = "a/metadata/b".toList ∧
    firstEitherTid ("a/metadata/b/data/c".toList) = "a".toList ∧
    ("a/metadata/b/data/c".toList =
      "a".toList ++ metadataMarker ++ "b/data/c".toList) ∧
    "a/metadata/b".toList ≠ "a".toList := by
  exact ⟨by decide, by decide, by decide, by decide⟩

/-- C7 (amended): the resolver splits at the first occurrence of
`/data/` whenever `/data/` occurs anywhere in the key, else at the first
occurrence of `/metadata/`, else takes the key's parent path; with no
static mapping the fully-qualified name is the catalog name, a dot, and
the table id with slashes replaced by dots. -/
theorem c7_amended_resolver (cfg : Config) (key : List Char) :
    (hasSub dataMarker key = true →
      (∃ rest, key = (tableIdFromKey cfg key).1 ++ dataMarker ++ rest) ∧
      ∀ a b, key = a ++ dataMarker ++ b →
        (tableIdFromKey cfg key).1.length ≤ a.length) ∧
    (hasSub dataMarker key = false → hasSub metadataMarker key = true →
      (∃ rest, key = (tableIdFromKey cfg key).1 ++ metadataMarker ++ rest) ∧
      ∀ a b, key = a ++ metadataMarker ++ b →
        (tableIdFromKey cfg key).1.length ≤ a.length) ∧
    (hasSub dataMarker key = false → hasSub metadataMarker key = false →
      (tableIdFromKey cfg key).1 = parentPath key) ∧
    (lookupMapping cfg.tableMappings (tableIdFromKey cfg key).1 = none →
      (tableIdFromKey cfg key).2 =
        cfg.catalogName ++ '.' :: slashToDot (tableIdFromKey cfg key).1) := by
  refine ⟨?_, ?_, ?_, ?_⟩
  · intro hd
    have h1 : (tableIdFromKey cfg key).1 = beforeFirst dataMarker key := by
      simp [tableIdFromKey, hd]
    rw [h1]
    exact ⟨beforeFirst_decomp dataMarker key hd,
      fun a b h => beforeFirst_min dataMarker key a b h⟩
  · intro hd hm
    have h1 : (tableIdFromKey cfg key).1 = beforeFirst metadataMarker key := by
      simp [tableIdFromKey, hd, hm]
    rw [h1]
    exact ⟨beforeFirst_decomp metadataMarker key hm,
      fun a b h => beforeFirst_min metadataMarker key a b h⟩
  · intro hd hm
    simp [tableIdFromKey, hd, hm]
  · intro hl
    simp only [tableIdFromKey] at hl ⊢
    rw [hl]

/-- Witness for C7 (amended): the claim's scenario key resolves to
`sales/orders` and `cat.sales.orders`, and the decomposition at the
first `/data/` holds there. -/
theorem c7_amended_resolver_witness :
    (∃ rest, "sales/orders/data/0001-deletes.parquet".toList =
      (tableIdFromKey cfgA ("sales/orders/data/0001-deletes.parquet".toList)).1 ++
        dataMarker ++ rest) ∧
    (tableIdFromKey cfgA ("sales/orders/data/0001-deletes.parquet".toList)).1 =
      "sales/orders".toList ∧
    (tableIdFromKey cfgA ("sales/orders/data/0001-deletes.parquet".toList)).2 =
      "cat.sales.orders".toList :=
  ⟨((c7_amended_resolver cfgA
      ("sales/orders/data/0001-deletes.parquet".toList)).1 (by decide)).1,
   by decide, by decide⟩

/-! ### Claim C10 -/

/-- C10 counterexample: `p = "x/data"` contains neither marker, yet the
synthetic key `x/data/data/dummy` resolves to `x`, not `p`: the marker
occurrence found first starts inside `p`'s tail plus the appended slash. -/
theorem c10_counterexample :
    hasSub dataMarker ("x/data".toList) = false ∧
    hasSub metadataMarker ("x/data".toList) = false ∧
    (tableIdFromKey cfgA ("x/data".toList ++ "/data/dummy".toList)).1 = "x".toList ∧
    "x".toList ≠ "x/data".toList := by
  exact ⟨by decide, by decide, by decide, by decide⟩

/-- C10 (amended): for a table id `p` containing neither marker and not
ending with `/data`, resolving the synthetic key `p ++ "/data/dummy"`
returns `p`, so legacy retry signals for such table ids round-trip. -/
theorem c10_amended_retry_roundtrip (cfg : Config) (p : List Char)
    (h1 : hasSub dataMarker p = false)
    (h2 : hasSub metadataMarker p = false)
    (h3 : endsWithL ("/data".toList) p = false) :
    (tableIdFromKey cfg (p ++ "/data/dummy".toList)).1 = p := by
  have hdd : ("/data/dummy".toList : List Char) = dataMarker ++ "dummy".toList := by
    decide
  have hkey : p ++ "/data/dummy".toList = p ++ dataMarker ++ "dummy".toList := by
    rw [hdd, List.append_assoc]
  have hsub : hasSub dataMarker (p ++ "/data/dummy".toList) = true := by
    rw [hasSub_iff]
    exact ⟨p, "dummy".toList, hkey⟩
  set key := p ++ "/data/dummy".toList with hkeydef
  have htid : (tableIdFromKey cfg key).1 = beforeFirst dataMarker key := by
    simp [tableIdFromKey, hsub]
  rw [htid]
  obtain ⟨c, hc⟩ := beforeFirst_decomp dataMarker key hsub
  have hlen : (beforeFirst dataMarker key).length ≤ p.length :=
    beforeFirst_min dataMarker key p ("dummy".toList) hkey
  set bf := beforeFirst dataMarker key with hbf
  have heq : bf ++ (dataMarker ++ c) = p ++ (dataMarker ++ "dummy".toList) := by
    rw [← List.append_assoc, ← hc, hkey, List.append_assoc]
  rcases List.append_eq_append_iff.mp heq with ⟨w, hw1, hw2⟩ | ⟨w, hw1, hw2⟩
  · -- p = bf ++ w and dataMarker ++ c = w ++ (dataMarker ++ dummy)
    rcases List.append_eq_append_iff.mp hw2 with ⟨u, hu1, hu2⟩ | ⟨u, hu1, hu2⟩
    · -- w = dataMarker ++ u : the marker would occur inside p
      exfalso
      have hinp : hasSub dataMarker p = true := by
        rw [hasSub_iff]
        exact ⟨bf, u, by rw [hw1, hu1, List.append_assoc]⟩
      rw [hinp] at h1
      simp at h1
    · -- dataMarker = w ++ u : w is an initial piece of the marker
      have huv : u = List.drop w.length dataMarker := by
        rw [hu1]
        exact (List.drop_left w u).symm
      have hwv : w = List.take w.length dataMarker := by
        rw [hu1]
        exact (List.take_left w u).symm
      have hwlen : w.length ≤ 6 := by
        have hl := congrArg List.length hu1
        rw [List.length_append] at hl
        have hdm6 : dataMarker.length = 6 := by decide
        omega
      rw [huv] at hu2
      obtain ⟨n, hn⟩ : ∃ n, w.length = n := ⟨_, rfl⟩
      rw [hn] at hwv hu2 hwlen
      interval_cases n
      · have hw0 : w = [] := by rw [hwv]; rfl
        rw [hw1, hw0, List.append_nil]
      · injection hu2 with hh htl
        exact absurd hh (by decide)
      · injection hu2 with hh htl
        exact absurd hh (by decide)
      · injection hu2 with hh htl
        exact absurd hh (by decide)
      · injection hu2 with hh htl
        exact absurd hh (by decide)
      · have hw5 : w = "/data".toList := by rw [hwv]; decide
        have hend : endsWithL ("/data".toList) p = true := by
          rw [endsWithL_iff]
          exact ⟨bf, by rw [hw1, hw5]⟩
        rw [hend] at h3
        simp at h3
      · have hw6 : w = dataMarker := by rw [hwv]; decide
        have hinp : hasSub dataMarker p = true := by
          rw [hasSub_iff]
          exact ⟨bf, [], by rw [List.append_nil, hw1, hw6]⟩
        rw [hinp] at h1
        simp at h1
  · -- bf = p ++ w with bf.length ≤ p.length forces w = []
    have hl := congrArg List.length hw1
    simp [List.length_append] at hl
    have hw0 : w = [] := List.length_eq_zero.mp (by omega)
    rw [hw1, hw0, List.append_nil]

/-- Witness for C10 (amended): `sales/orders` round-trips through the
synthetic legacy-retry key. -/
theorem c10_amended_retry_roundtrip_witness :
    (tableIdFromKey cfgA ("sales/orders".toList ++ "/data/dummy".toList)).1 =
      "sales/orders".toList :=
  c10_amended_retry_roundtrip cfgA ("sales/orders".toList)
    (by decide) (by decide) (by decide)

end GlueDeletes
